import Mathlib

/-!
Shallow embedding of the chunked entropy / byte-occurrence engine of
`src/graphs/ent/graph.py` (binGraph repository), together with theorems
settling the specification claims about it.

Conventions of the embedding:
* File bytes are modelled as `List Nat` (the values produced by
  `list(bytearray(...))` in the source, each in 0..255).
* Python `int` is `Int`; the float values `fs / chunks` used only for
  axis-coordinate conversion are modelled as exact rationals `ℚ`.
* The external Shannon-entropy helper (`graphs.helpers.shannon_ent`, not
  part of this file set) is an abstract parameter `shannon : List Nat → ℚ`.
* Fallible Python code (raising exceptions) is modelled with `Except PyErr`.
* The external JSON decoder (`json.loads`) and the external binary parser
  (`lief.parse`) are modelled by their outcome, passed in as an argument.
-/

namespace BinGraph

/-- Python exception values that the modelled code can raise. -/
inductive PyErr
  | argValidationEx (msg : String)
  | typeError (msg : String)
  | valueError (msg : String)
deriving DecidableEq

/-- A JSON value as produced by `json.loads` (object keys are strings). -/
inductive JVal
  | str (s : String)
  | int (n : Int)
  | bool (b : Bool)
  | null
  | list (xs : List JVal)
  | obj (fields : List (String × JVal))

/-- Python `len(v)`: defined for strings, lists and dicts; `none` models the
`TypeError` raised for objects without a length. -/
def pyLen : JVal → Option Nat
  | JVal.str s => some s.length
  | JVal.list xs => some xs.length
  | JVal.obj fields => some fields.length
  | _ => none

/-- Python iteration `for b in v`: characters of a string, elements of a
list, keys of a dict; `none` models the `TypeError` for non-iterables. -/
def pyIter : JVal → Option (List JVal)
  | JVal.str s => some (s.toList.map (fun c => JVal.str (String.mk [c])))
  | JVal.list xs => some xs
  | JVal.obj fields => some (fields.map (fun p => JVal.str p.1))
  | _ => none

/-- Python `type(v) == int` (note `type(True) == int` is `False`). -/
def isPyInt : JVal → Bool
  | JVal.int _ => true
  | _ => false

/-- Python `type(v) == list`. -/
def isPyList : JVal → Bool
  | JVal.list _ => true
  | _ => false

/-- The inner loop `for b in bytelist: if not type(b) == int: raise ...` of
`args_validation` (graph.py lines 84-86). -/
def validate_elems (name : String) : List JVal → Except PyErr Unit
  | [] => Except.ok ()
  | b :: rest =>
    if isPyInt b then validate_elems name rest
    else Except.error (PyErr.argValidationEx
      ("Error validating --ibytes. Item in list not an int: " ++ name))

/-- One iteration of the sanity loop of `args_validation` (graph.py lines
79-86) over a single `name, bytelist` pair.  The first Python condition is
`not (type(name) == str or type(bytelist) == list) or not len(bytelist) > 0`:
since dict keys produced by `json.loads` are always strings, the left
disjunct is constantly false and evaluation proceeds to `len(bytelist)`,
which raises `TypeError` for values without a length. -/
def validate_group (name : String) (v : JVal) : Except PyErr Unit :=
  if !(true || isPyList v) then
    Except.error (PyErr.argValidationEx
      ("Error validating --ibytes. Name is not a string or bytes not list: " ++ name))
  else
    match pyLen v with
    | none => Except.error (PyErr.typeError ("object has no len"))
    | some l =>
      if l > 0 then
        match pyIter v with
        | none => Except.error (PyErr.typeError ("object is not iterable"))
        | some elems => validate_elems name elems
      else
        Except.error (PyErr.argValidationEx
          ("Error validating --ibytes. Name is not a string or bytes not list: " ++ name))

/-- The loop `for name, bytelist in args.ibytes.items()` of
`args_validation`, in dict insertion order. -/
def validate_fields : List (String × JVal) → Except PyErr Unit
  | [] => Except.ok ()
  | (name, v) :: rest =>
    match validate_group name v with
    | Except.error e => Except.error e
    | Except.ok _ => validate_fields rest

/-- `args_validation` (graph.py lines 70-86), acting on the `--ibytes`
argument.  The argument is `none` when the flag was given without a value
(Python then substitutes `json.loads` of an empty object), otherwise the
outcome of the external `json.loads` call on the given text: a decode
error is re-raised as `ArgValidationEx`; a decoded non-dict value makes
`.items()` fail; a decoded dict runs the sanity loop. -/
def args_validation (ibytes_arg : Option (Except String JVal)) : Except PyErr JVal :=
  match ibytes_arg with
  | none => Except.ok (JVal.obj [])
  | some (Except.error e) =>
    Except.error (PyErr.argValidationEx ("Error decoding json --ibytes value. " ++ e))
  | some (Except.ok v) =>
    match v with
    | JVal.obj fields =>
      match validate_fields fields with
      | Except.error e => Except.error e
      | Except.ok _ => Except.ok (JVal.obj fields)
    | _ => Except.error (PyErr.typeError ("object has no attribute items"))

/-- Ceiling division on naturals, the value of the Python idiom
`-(-fs // chunks)` for a positive divisor (bridged below in
`chunksize_eq_cdiv`). -/
def cdiv (a b : Nat) : Nat := (a + b - 1) / b

/-- `chunksize` as computed in `generate` (graph.py lines 96-101):
`1` when `chunks > fs`, else the Python expression `-(-fs // chunks)`
(`//` is floor division, i.e. `Int.fdiv`). -/
def chunksize (fs n : Nat) : Int :=
  if fs < n then 1 else -(Int.fdiv (-(fs : Int)) (n : Int))

/-- The chunk size as the natural number of bytes passed to `fh.read`. -/
def chunksizeN (fs n : Nat) : Nat := (chunksize fs n).toNat

/-- `nr_chunksize` as computed in `generate` (graph.py lines 96-102): the
non-rounded chunk width used only for offset-coordinate conversion, `1`
when `chunks > fs` and `fs / chunks` otherwise (exact rational in place of
the Python float). -/
def nr_chunksize (fs n : Nat) : ℚ :=
  if fs < n then 1 else (fs : ℚ) / (n : ℚ)

/-- `get_chunk` (graph.py lines 241-252): repeatedly read `chunksize`
bytes and yield each non-empty block; reading zero bytes at a time (or an
exhausted stream) yields nothing. -/
def get_chunk (data : List Nat) (chunksize : Nat) : List (List Nat) :=
  if h : chunksize = 0 ∨ data = [] then []
  else data.take chunksize :: get_chunk (data.drop chunksize) chunksize
termination_by data.length
decreasing_by
  have h1 : chunksize ≠ 0 := fun hc => h (Or.inl hc)
  have h2 : data ≠ [] := fun hd => h (Or.inr hd)
  have h3 : 0 < data.length := List.length_pos.mpr h2
  simp only [List.length_drop]
  omega

/-- The running accumulation `occurrence += cbytes[b]` over a byte range
(graph.py lines 128-130); `Counter(chunk)[b]` is the number of elements of
the chunk equal to `b` (0 when absent). -/
def occurrence (chunk : List Nat) (b_range : List Int) : Nat :=
  b_range.foldl (fun occ b => occ + chunk.countP (fun (x : Nat) => (x : Int) == b)) 0

/-- The percentage appended per chunk and group,
`(float(occurrence) / float(len(chunk))) * 100` (graph.py line 132). -/
def byte_pc (chunk : List Nat) (b_range : List Int) : ℚ :=
  ((occurrence chunk b_range : ℚ) / (chunk.length : ℚ)) * 100

/-- The mutable loop state of the sampling loop of `generate`
(graph.py lines 112-132): `prev_ent`, the entropy series and one
percentage series per interesting-byte group (in dict order, parallel to
the `ibytes` list). -/
structure LoopState where
  prev_ent : ℚ
  shannon_samples : List ℚ
  byte_ranges : List (List ℚ)
deriving DecidableEq

/-- One iteration of `for chunk in get_chunk(...)` (graph.py lines
114-132).  `ent` is first set to the median of the current and previous
entropy and then immediately overwritten by `real_ent` before being
appended (`statistics.median` of two values is their mean). -/
def loop_step (shannon : List Nat → ℚ) (ibytes : List (String × List Int))
    (st : LoopState) (chunk : List Nat) : LoopState :=
  let real_ent := shannon chunk
  let ent := (real_ent + st.prev_ent) / 2
  let prev_ent := real_ent
  let ent := real_ent
  { prev_ent := prev_ent
    shannon_samples := st.shannon_samples ++ [ent]
    byte_ranges :=
      List.zipWith (fun p cur => cur ++ [byte_pc chunk p.2]) ibytes st.byte_ranges }

/-- Initial loop state: `prev_ent = 0`, empty entropy series, and the dict
comprehension `byte_ranges = {key: [] for key in ibytes.keys()}`
(graph.py lines 107-113). -/
def init_state (ibytes : List (String × List Int)) : LoopState :=
  ⟨0, [], ibytes.map (fun _ => [])⟩

/-- The whole sampling loop of `generate` over a stream of chunks. -/
def run_loop (shannon : List Nat → ℚ) (ibytes : List (String × List Int))
    (chunks : List (List Nat)) : LoopState :=
  chunks.foldl (loop_step shannon ibytes) (init_state ibytes)

/-- Applying the format specification `d` to a Python value, as in
the fallback template of `safe_section_name` (format spec `sect_` followed
by a `d`-formatted field): an integer is rendered in decimal, while a string
argument raises `ValueError` (format code `d` is not defined for `str`). -/
def format_code_d : JVal → Except PyErr String
  | JVal.int n => Except.ok (toString n)
  | _ => Except.error (PyErr.valueError ("Unknown format code d for object of type str"))

/-- `safe_section_name` (graph.py lines 255-258): an empty or absent
section name falls back to formatting `str(index)` with the `d` format
code prefixed by `sect_`. -/
def safe_section_name (s_name : Option String) (index : Nat) : Except PyErr String :=
  if s_name = some ("") ∨ s_name = none then
    match format_code_d (JVal.str (toString index)) with
    | Except.error e => Except.error e
    | Except.ok t => Except.ok ("sect_" ++ t)
  else Except.ok (s_name.getD (""))

/-- Conversion of a raw file offset to a chunk-index coordinate, the
expression `offset / nr_chunksize` used for the entry point and the
section lines (graph.py lines 191 and 202). -/
def chunkIndexOf (scale offset : ℚ) : ℚ := offset / scale

/-- Conversion of a chunk-index coordinate back to a raw file offset, the
expression `x * nr_chunksize` of the axis tick formatter
(graph.py line 144), before display truncation. -/
def offsetOf (scale x : ℚ) : ℚ := x * scale

/-- The interface of the `lief` binary-format collaborator as used by
`generate`: the container format name, whether the parsed object is a
`lief.PE.Binary`, the entry point already resolved to a raw file offset
(`va_to_offset(entrypoint)`), and the declared sections as
(possibly absent name, raw file offset) pairs. -/
structure LiefBinary where
  format : String
  isPE : Bool
  ep_offset : Int
  sections : List (Option String × Nat)

/-- Log events emitted through the `logging` collaborator. -/
inductive LogEvent
  | debug (msg : String)
  | warning (msg : String)
deriving DecidableEq

/-- The section loop of the PE branch of `generate` (graph.py lines
198-207): each section yields one annotation labelled by
`safe_section_name` and positioned at `section.offset / nr_chunksize`;
a raised exception aborts the whole call. -/
def section_annots (nr : ℚ) : Nat → List (Option String × Nat) → Except PyErr (List (String × ℚ))
  | _, [] => Except.ok []
  | index, (s_name, offset) :: rest =>
    match safe_section_name s_name index with
    | Except.error e => Except.error e
    | Except.ok sn =>
      match section_annots nr (index + 1) rest with
      | Except.error e => Except.error e
      | Except.ok tail => Except.ok ((sn, chunkIndexOf nr (offset : ℚ)) :: tail)

/-- The filetype-specific part of `generate` (graph.py lines 172-216):
in blob mode only a warning is logged; otherwise the outcome of
`lief.parse` is inspected — a `lief.bad_file` failure downgrades to blob
behaviour with a warning, a PE binary yields the `EP` annotation followed
by one annotation per section, any other recognized container yields no
annotations. -/
def annotations_phase (blob : Bool) (parse_result : Except String LiefBinary) (nr : ℚ) :
    Except PyErr (List (String × ℚ) × List LogEvent) :=
  if blob then
    Except.ok ([], [LogEvent.warning ("Parsing file as blob - no filetype specific features")])
  else
    match parse_result with
    | Except.error e =>
      Except.ok ([], [LogEvent.warning ("Failed to parse with lief, parsing like --blob: " ++ e)])
    | Except.ok exebin =>
      if exebin.isPE then
        match section_annots nr 0 exebin.sections with
        | Except.error e => Except.error e
        | Except.ok secs =>
          Except.ok (("EP", chunkIndexOf nr (exebin.ep_offset : ℚ)) :: secs,
            [LogEvent.debug ("Parsed with lief as " ++ exebin.format),
             LogEvent.debug ("Adding PE customisations")])
      else
        Except.ok ([],
          [LogEvent.debug ("Parsed with lief as " ++ exebin.format),
           LogEvent.debug ("Not currently customised: " ++ exebin.format)])

/-- The aggregate analysis output of one `generate` call: the entropy
series, one percentage series per interesting-byte group, the offset
annotations, and the offset-scale factor. -/
structure AnalysisResult where
  shannon_samples : List ℚ
  byte_ranges : List (List ℚ)
  annotations : List (String × ℚ)
  nr_chunksize : ℚ

/-- `generate` (graph.py lines 90-236), restricted to its analysis
content: compute the chunk parameters from the file size, run the
sampling loop over the chunk stream, then run the filetype-specific
annotation phase, and assemble the result handed to the renderer. -/
def generate (shannon : List Nat → ℚ) (data : List Nat) (chunks_arg : Nat)
    (ibytes : List (String × List Int)) (blob : Bool)
    (parse_result : Except String LiefBinary) :
    Except PyErr (AnalysisResult × List LogEvent) :=
  let fs := data.length
  let cs := chunksizeN fs chunks_arg
  let nr := nr_chunksize fs chunks_arg
  let st := run_loop shannon ibytes (get_chunk data cs)
  match annotations_phase blob parse_result nr with
  | Except.error e => Except.error e
  | Except.ok (annots, events) =>
    Except.ok (⟨st.shannon_samples, st.byte_ranges, annots, nr⟩, events)

/-! ### Helper lemmas -/

/-- Unfolding equation for `get_chunk`. -/
lemma get_chunk_unfold (data : List Nat) (cs : Nat) :
    get_chunk data cs =
      if cs = 0 ∨ data = [] then []
      else data.take cs :: get_chunk (data.drop cs) cs := by
  rw [get_chunk]
  split
  · rfl
  · rfl

lemma get_chunk_nil (cs : Nat) : get_chunk [] cs = [] := by
  rw [get_chunk_unfold]
  simp

lemma get_chunk_cons (data : List Nat) (cs : Nat) (h1 : cs ≠ 0) (h2 : data ≠ []) :
    get_chunk data cs = data.take cs :: get_chunk (data.drop cs) cs := by
  rw [get_chunk_unfold]
  simp [h1, h2]

/-- The sampling loop, generalized over the starting state: it appends the
pointwise entropy of each chunk to the entropy series and the pointwise
group percentage of each chunk to each group series. -/
lemma foldl_loop_spec (shannon : List Nat → ℚ) (ibytes : List (String × List Int))
    (chunks : List (List Nat)) :
    ∀ (st : LoopState) (g : (String × List Int) → List ℚ),
      st.byte_ranges = ibytes.map g →
      (chunks.foldl (loop_step shannon ibytes) st).shannon_samples
          = st.shannon_samples ++ chunks.map shannon
        ∧ (chunks.foldl (loop_step shannon ibytes) st).byte_ranges
          = ibytes.map (fun p => g p ++ chunks.map (fun c => byte_pc c p.2)) := by
  induction chunks with
  | nil =>
    intro st g hg
    simp [hg]
  | cons c t ih =>
    intro st g hg
    have hstep : (loop_step shannon ibytes st c).byte_ranges
        = ibytes.map (fun p => g p ++ [byte_pc c p.2]) := by
      simp only [loop_step, hg]
      rw [List.zipWith_map_right]
      rw [List.zipWith_same]
    have hsam : (loop_step shannon ibytes st c).shannon_samples
        = st.shannon_samples ++ [shannon c] := rfl
    have := ih (loop_step shannon ibytes st c) (fun p => g p ++ [byte_pc c p.2]) hstep
    constructor
    · rw [List.foldl_cons, this.1, hsam]
      simp
    · rw [List.foldl_cons, this.2]
      simp

/-- The entropy series of the sampling loop is the pointwise map of the
entropy function over the chunks. -/
lemma run_loop_samples (shannon : List Nat → ℚ) (ibytes : List (String × List Int))
    (chunks : List (List Nat)) :
    (run_loop shannon ibytes chunks).shannon_samples = chunks.map shannon := by
  have := foldl_loop_spec shannon ibytes chunks (init_state ibytes) (fun _ => []) rfl
  simpa [run_loop, init_state] using this.1

/-- Each group series of the sampling loop is the pointwise map of
`byte_pc` over the chunks. -/
lemma run_loop_ranges (shannon : List Nat → ℚ) (ibytes : List (String × List Int))
    (chunks : List (List Nat)) :
    (run_loop shannon ibytes chunks).byte_ranges
      = ibytes.map (fun p => chunks.map (fun c => byte_pc c p.2)) := by
  have := foldl_loop_spec shannon ibytes chunks (init_state ibytes) (fun _ => []) rfl
  simpa [run_loop, init_state] using this.2

/-- The Python idiom `-(-fs // n)` computes ceiling division. -/
lemma neg_fdiv_neg_eq_cdiv (fs n : Nat) (hn : 1 ≤ n) :
    -(Int.fdiv (-(fs : Int)) (n : Int)) = (cdiv fs n : Int) := by
  have hb : (0 : Int) < (n : Int) := by exact_mod_cast hn
  have heq := Int.fdiv_add_fmod (-(fs : Int)) (n : Int)
  have hr0 : 0 ≤ Int.fmod (-(fs : Int)) (n : Int) := Int.fmod_nonneg' _ hb
  have hrn : Int.fmod (-(fs : Int)) (n : Int) < (n : Int) := Int.fmod_lt_of_pos _ hb
  set q := Int.fdiv (-(fs : Int)) (n : Int) with hq
  set r := Int.fmod (-(fs : Int)) (n : Int) with hr
  have hfs0 : (0 : Int) ≤ (fs : Int) := Int.natCast_nonneg fs
  have hkey : (n : Int) * (-q) = (fs : Int) + r := by linarith
  have hq0 : 0 ≤ -q := by
    by_contra hcon
    push_neg at hcon
    have hneg : (n : Int) * (-q) < 0 := mul_neg_of_pos_of_neg hb hcon
    linarith
  set k := (-q).toNat with hk
  have hkq : (k : Int) = -q := Int.toNat_of_nonneg hq0
  set rn := r.toNat with hrnat
  have hrq : (rn : Int) = r := Int.toNat_of_nonneg hr0
  have hmul : n * k = fs + rn := by
    have : ((n * k : Nat) : Int) = ((fs + rn : Nat) : Int) := by
      push_cast
      rw [hkq, hrq]
      exact hkey
    exact_mod_cast this
  have hrbound : rn < n := by
    have : (rn : Int) < (n : Int) := by rw [hrq]; exact hrn
    exact_mod_cast this
  have hdiv : (fs + n - 1) / n = k := by
    apply Nat.div_eq_of_lt_le
    · rw [mul_comm, hmul]
      omega
    · rw [add_mul, one_mul, mul_comm k n, hmul]
      omega
  have : cdiv fs n = k := by
    unfold cdiv
    exact hdiv
  rw [this, ← hkq]

/-- `a ≤ cdiv a b * b` for a positive divisor. -/
lemma le_cdiv_mul (a b : Nat) (hb : 1 ≤ b) : a ≤ cdiv a b * b := by
  unfold cdiv
  rw [mul_comm]
  have hdm := Nat.div_add_mod (a + b - 1) b
  have hm : (a + b - 1) % b < b := Nat.mod_lt _ (by omega)
  generalize b * ((a + b - 1) / b) = P at hdm ⊢
  omega

/-- `cdiv a b ≤ k` as soon as `a ≤ k * b`, for a positive divisor. -/
lemma cdiv_le_of_le_mul (a b k : Nat) (hb : 1 ≤ b) (h : a ≤ k * b) : cdiv a b ≤ k := by
  unfold cdiv
  rw [Nat.div_le_iff_le_mul_add_pred (by omega)]
  rw [mul_comm k b] at h
  generalize b * k = P at h ⊢
  omega

/-- Natural ceiling division agrees with the rational ceiling. -/
lemma cdiv_eq_ceil (a b : Nat) (hb : 1 ≤ b) :
    cdiv a b = Nat.ceil ((a : ℚ) / (b : ℚ)) := by
  have hbq : (0 : ℚ) < (b : ℚ) := by exact_mod_cast Nat.lt_of_lt_of_le Nat.zero_lt_one hb
  apply le_antisymm
  · apply cdiv_le_of_le_mul a b _ hb
    have h1 : (a : ℚ) / (b : ℚ) ≤ (Nat.ceil ((a : ℚ) / (b : ℚ)) : ℚ) := Nat.le_ceil _
    have h2 : (a : ℚ) ≤ (Nat.ceil ((a : ℚ) / (b : ℚ)) : ℚ) * (b : ℚ) :=
      (div_le_iff₀ hbq).mp h1
    exact_mod_cast h2
  · rw [Nat.ceil_le, div_le_iff₀ hbq]
    exact_mod_cast le_cdiv_mul a b hb

lemma cdiv_self (n : Nat) (hn : 1 ≤ n) : cdiv n n = 1 := by
  unfold cdiv
  apply Nat.div_eq_of_lt_le <;> omega

lemma cdiv_one (a : Nat) : cdiv a 1 = a := by
  unfold cdiv
  omega

/-- The rounded chunk size, written through `cdiv`. -/
lemma chunksize_eq (fs n : Nat) (hn : 1 ≤ n) :
    chunksize fs n = (if fs < n then 1 else (cdiv fs n : Int)) := by
  unfold chunksize
  by_cases h : fs < n
  · simp [h]
  · simp [h, neg_fdiv_neg_eq_cdiv fs n hn]

lemma chunksizeN_eq (fs n : Nat) (hn : 1 ≤ n) :
    chunksizeN fs n = if fs < n then 1 else cdiv fs n := by
  unfold chunksizeN
  rw [chunksize_eq fs n hn]
  by_cases h : fs < n <;> simp [h]

lemma chunksizeN_pos (fs n : Nat) (hn : 1 ≤ n) : 1 ≤ chunksizeN fs n := by
  rw [chunksizeN_eq fs n hn]
  by_cases h : fs < n
  · simp [h]
  · simp only [h, if_false]
    unfold cdiv
    rw [Nat.one_le_div_iff (by omega)]
    omega

/-- Recurrence of ceiling division along one chunk read. -/
lemma cdiv_rec (m cs : Nat) (hcs : 1 ≤ cs) (hm : 1 ≤ m) :
    cdiv (m - cs) cs + 1 = cdiv m cs := by
  by_cases h : m ≤ cs
  · have h0 : m - cs = 0 := by omega
    have e1 : cdiv 0 cs = 0 := by
      unfold cdiv
      exact Nat.div_eq_of_lt (by omega)
    have e2 : cdiv m cs = 1 := by
      unfold cdiv
      apply Nat.div_eq_of_lt_le <;> omega
    rw [h0, e1, e2]
  · push_neg at h
    unfold cdiv
    have e1 : m - cs + cs - 1 = (m - cs - 1) + cs := by omega
    have e2 : m + cs - 1 = (m - 1) + cs := by omega
    have e3 : m - 1 = (m - cs - 1) + cs := by omega
    rw [e1, e2, Nat.add_div_right _ (by omega), Nat.add_div_right _ (by omega), e3,
      Nat.add_div_right _ (by omega)]

/-- The number of chunks produced by `get_chunk` is the ceiling of the
file size divided by the chunk size. -/
lemma get_chunk_length (data : List Nat) (cs : Nat) (hcs : 1 ≤ cs) :
    (get_chunk data cs).length = cdiv data.length cs := by
  induction data, cs using get_chunk.induct with
  | case1 data cs h =>
    rcases h with h | h
    · omega
    · subst h
      rw [get_chunk_nil]
      have : cdiv 0 cs = 0 := by
        unfold cdiv
        exact Nat.div_eq_of_lt (by omega)
      simp [this]
  | case2 data cs h ih =>
    push_neg at h
    rw [get_chunk_cons data cs h.1 h.2]
    have hpos : 0 < data.length := List.length_pos.mpr h.2
    have hdl : (data.drop cs).length = data.length - cs := List.length_drop cs data
    rw [List.length_cons, ih hcs, hdl]
    exact cdiv_rec data.length cs hcs (by omega)

/-- Every produced chunk is non-empty and no longer than the chunk size. -/
lemma get_chunk_mem (data : List Nat) (cs : Nat) :
    ∀ c ∈ get_chunk data cs, c ≠ [] ∧ c.length ≤ cs := by
  induction data, cs using get_chunk.induct with
  | case1 data cs h =>
    rw [get_chunk_unfold]
    simp [h]
  | case2 data cs h ih =>
    push_neg at h
    rw [get_chunk_cons data cs h.1 h.2]
    intro c hc
    rcases List.mem_cons.mp hc with hc | hc
    · subst hc
      refine ⟨?_, ?_⟩
      · rw [Ne, List.take_eq_nil_iff]
        push_neg
        exact ⟨h.1, h.2⟩
      · simp [List.length_take]
    · exact ih c hc

/-- Every chunk other than the last has length exactly the chunk size. -/
lemma get_chunk_not_last (data : List Nat) (cs : Nat) :
    ∀ i, i + 1 < (get_chunk data cs).length →
      ((get_chunk data cs).getD i []).length = cs := by
  induction data, cs using get_chunk.induct with
  | case1 data cs h =>
    rw [get_chunk_unfold]
    simp [h]
  | case2 data cs h ih =>
    push_neg at h
    rw [get_chunk_cons data cs h.1 h.2]
    intro i hi
    cases i with
    | zero =>
      have hrest : get_chunk (data.drop cs) cs ≠ [] := by
        intro hnil
        rw [List.length_cons, hnil] at hi
        simp at hi
      have hdrop : data.drop cs ≠ [] := by
        intro hd
        rw [hd, get_chunk_nil] at hrest
        exact hrest rfl
      have hlt : cs < data.length := by
        by_contra hle
        push_neg at hle
        exact hdrop (List.drop_eq_nil_of_le hle)
      simp [List.length_take]
      omega
    | succ j =>
      rw [List.getD_cons_succ]
      apply ih
      rw [List.length_cons] at hi
      omega

/-- The running-sum loop of `occurrence`, separated from its accumulator. -/
lemma occurrence_foldl (chunk : List Nat) (l : List Int) (a : Nat) :
    l.foldl (fun occ b => occ + chunk.countP (fun (x : Nat) => (x : Int) == b)) a
      = a + (l.map (fun b => chunk.countP (fun (x : Nat) => (x : Int) == b))).sum := by
  induction l generalizing a with
  | nil => simp
  | cons b t ih =>
    rw [List.foldl_cons, ih, List.map_cons, List.sum_cons]
    omega

/-- Counting a disjunction of two element-wise disjoint predicates splits
into the sum of the two counts. -/
lemma countP_or_disjoint {α : Type} (c : List α) (p q : α → Bool)
    (h : ∀ x ∈ c, ¬(p x = true ∧ q x = true)) :
    c.countP (fun x => p x || q x) = c.countP p + c.countP q := by
  induction c with
  | nil => simp
  | cons a t ih =>
    have ha := h a (List.mem_cons_self a t)
    have ht : ∀ x ∈ t, ¬(p x = true ∧ q x = true) :=
      fun x hx => h x (List.mem_cons_of_mem a hx)
    rw [List.countP_cons, List.countP_cons, List.countP_cons, ih ht]
    cases hp : p a <;> cases hq : q a <;> simp [hp, hq] at ha ⊢ <;> omega

/-- For a duplicate-free byte group, summing the per-value counter reads
equals counting the bytes whose value lies in the group. -/
lemma occurrence_nodup (chunk : List Nat) (g : List Int) (hnd : g.Nodup) :
    occurrence chunk g = chunk.countP (fun (x : Nat) => decide ((x : Int) ∈ g)) := by
  unfold occurrence
  rw [occurrence_foldl chunk g 0, Nat.zero_add]
  induction g with
  | nil => simp
  | cons b t ih =>
    rw [List.nodup_cons] at hnd
    rw [List.map_cons, List.sum_cons, ih hnd.2]
    have hdisj : ∀ x ∈ chunk,
        ¬((fun (x : Nat) => (x : Int) == b) x = true ∧ (fun (x : Nat) => decide ((x : Int) ∈ t)) x = true) := by
      intro x _ hx
      have hxb : (x : Int) = b := by exact_mod_cast beq_iff_eq.mp hx.1
      have hxt : (x : Int) ∈ t := of_decide_eq_true hx.2
      rw [hxb] at hxt
      exact hnd.1 hxt
    rw [← countP_or_disjoint chunk _ _ hdisj]
    apply List.countP_congr
    intro x _
    simp [List.mem_cons]

/-! ### Claim theorems -/

/-- C10: the i-th entropy sample appended by the sampling loop is the
entropy of the i-th chunk alone — the intermediate median-with-previous
computation is overwritten before the append, so the entropy series is
exactly the pointwise map of the entropy function over the chunk
sequence, each sample independent of the preceding chunks. -/
theorem entropy_series_pointwise (shannon : List Nat → ℚ)
    (ibytes : List (String × List Int)) (chunks : List (List Nat)) :
    (run_loop shannon ibytes chunks).shannon_samples = chunks.map shannon :=
  run_loop_samples shannon ibytes chunks

/-- C8: the offset conversions are pure functions given by division and
multiplication by the scale value, and for a nonzero scale they are
mutually inverse under exact rational arithmetic. -/
theorem offset_mapping_roundtrip (scale o x : ℚ) :
    chunkIndexOf scale o = o / scale
      ∧ offsetOf scale x = x * scale
      ∧ (scale ≠ 0 → offsetOf scale (chunkIndexOf scale o) = o) :=
  ⟨rfl, rfl, fun h => div_mul_cancel₀ o h⟩

/-- Witness for C8 at scale 2, offset 3. -/
theorem offset_mapping_roundtrip_witness :
    (2 : ℚ) ≠ 0 ∧ offsetOf 2 (chunkIndexOf 2 3) = 3 :=
  ⟨by norm_num, (offset_mapping_roundtrip 2 3 5).2.2 (by norm_num)⟩

/-- C4 (code bug): a section with empty name at index 2 does not yield the
label `sect_2`; instead the fallback formats `str(index)` with the
integer format code `d`, which raises `ValueError`. -/
theorem safe_section_name_raises :
    safe_section_name (some ("")) 2
      = Except.error (PyErr.valueError ("Unknown format code d for object of type str")) := rfl

/-- C6 (code bug): decoding failures and empty-list groups do raise
`ArgValidationEx`, and a well-formed spec of the recognized shape is
accepted, but a group whose value is not a list (here the integer 5) hits
`len(bytelist)` — the intended name/type test is vacuous because its two
sides are joined by `or` instead of `and` — and raises `TypeError`
instead of the validation error. -/
theorem args_validation_behaviour :
    args_validation (some (Except.error ("Expecting value: line 1 column 2 (char 1)")))
        = Except.error (PyErr.argValidationEx
            ("Error decoding json --ibytes value. Expecting value: line 1 column 2 (char 1)"))
      ∧ args_validation (some (Except.ok (JVal.obj [("g", JVal.list [JVal.int 0, JVal.int 144])])))
        = Except.ok (JVal.obj [("g", JVal.list [JVal.int 0, JVal.int 144])])
      ∧ args_validation (some (Except.ok (JVal.obj [("g", JVal.list [])])))
        = Except.error (PyErr.argValidationEx
            ("Error validating --ibytes. Name is not a string or bytes not list: g"))
      ∧ args_validation (some (Except.ok (JVal.obj [("g", JVal.int 5)])))
        = Except.error (PyErr.typeError ("object has no len")) :=
  ⟨rfl, rfl, rfl, rfl⟩

/-- C5 counterexample: a spec whose group contains the out-of-range byte
value 300 is accepted by validation without any error, contradicting the
claim that an out-of-range value raises `ArgValidationEx`. -/
theorem out_of_range_accepted :
    args_validation (some (Except.ok (JVal.obj [("g", JVal.list [JVal.int 300])])))
      = Except.ok (JVal.obj [("g", JVal.list [JVal.int 300])]) := rfl

/-- C1 counterexample: the claim that the offset-scale factor equals the
exact value `fs / n` also when `n > fs` is false — for a 2-byte file and
4 requested chunks the code sets the scale factor to 1, not 1/2. -/
theorem scale_factor_counterexample : nr_chunksize 2 4 ≠ (2 : ℚ) / (4 : ℚ) := by
  have h : nr_chunksize 2 4 = 1 := by unfold nr_chunksize; norm_num
  rw [h]
  norm_num

/-- C1 (amended): for `n ≥ 1` the rounded chunk size equals
`ceil(fs / n)` when `fs > n` and `1` otherwise, while the offset-scale
factor equals the exact value `fs / n` only when `n ≤ fs`, falling back
to `1` (one byte per chunk) when `n > fs`. -/
theorem chunk_parameters_amended (fs n : Nat) (hn : 1 ≤ n) :
    chunksize fs n = (if n < fs then (Nat.ceil ((fs : ℚ) / (n : ℚ)) : Int) else 1)
      ∧ nr_chunksize fs n = (if fs < n then 1 else (fs : ℚ) / (n : ℚ)) := by
  refine ⟨?_, rfl⟩
  rw [chunksize_eq fs n hn]
  rcases lt_trichotomy fs n with h | h | h
  · simp [h, Nat.lt_asymm h]
  · subst h
    simp only [lt_irrefl, if_false]
    rw [cdiv_eq_ceil fs fs hn] at *
    rw [← cdiv_eq_ceil fs fs hn, cdiv_self fs hn]
    simp
  · simp only [Nat.lt_asymm h, if_false, h, if_true]
    rw [cdiv_eq_ceil fs n hn]

/-- Witness for C1 at file size 7 and chunk count 5. -/
theorem chunk_parameters_amended_witness :
    1 ≤ 5
      ∧ (chunksize 7 5 = (if 5 < 7 then (Nat.ceil ((7 : ℚ) / (5 : ℚ)) : Int) else 1)
          ∧ nr_chunksize 7 5 = (if 7 < 5 then 1 else (7 : ℚ) / (5 : ℚ))) :=
  ⟨by decide, chunk_parameters_amended 7 5 (by decide)⟩

/-- C9: every chunk of the chunk stream is non-empty and at most the
configured chunk size long, and every chunk other than the final one has
length exactly the chunk size, so the per-chunk statistics never divide
by a zero chunk length. -/
theorem chunk_stream_invariant (data : List Nat) (cs : Nat) :
    (∀ c ∈ get_chunk data cs, c ≠ [] ∧ c.length ≤ cs)
      ∧ (∀ i, i + 1 < (get_chunk data cs).length →
          ((get_chunk data cs).getD i []).length = cs) :=
  ⟨get_chunk_mem data cs, get_chunk_not_last data cs⟩

/-- Concrete evaluation of the chunk stream on a 3-byte file with chunk
size 2. -/
lemma get_chunk_example : get_chunk [0, 1, 2] 2 = [[0, 1], [2]] := by
  have h1 := get_chunk_cons [0, 1, 2] 2 (by decide) (by decide)
  have h2 := get_chunk_cons [2] 2 (by decide) (by decide)
  simp only [show List.take 2 [0, 1, 2] = [0, 1] from rfl,
    show List.drop 2 [0, 1, 2] = [2] from rfl] at h1
  simp only [show List.take 2 [2] = [2] from rfl,
    show List.drop 2 [2] = ([] : List Nat) from rfl] at h2
  rw [h1, h2, get_chunk_nil]

/-- Witness for C9 on the 3-byte file with chunk size 2: the inner
hypotheses are discharged at the first chunk and at index 0. -/
theorem chunk_stream_invariant_witness :
    ([0, 1] ∈ get_chunk [0, 1, 2] 2 ∧ 0 + 1 < (get_chunk [0, 1, 2] 2).length)
      ∧ (([0, 1] ≠ ([] : List Nat) ∧ [0, 1].length ≤ 2)
          ∧ ((get_chunk [0, 1, 2] 2).getD 0 []).length = 2) := by
  have h1 : [0, 1] ∈ get_chunk [0, 1, 2] 2 := by
    rw [get_chunk_example]
    simp
  have h2 : 0 + 1 < (get_chunk [0, 1, 2] 2).length := by
    rw [get_chunk_example]
    simp
  exact ⟨⟨h1, h2⟩,
    (chunk_stream_invariant [0, 1, 2] 2).1 [0, 1] h1,
    (chunk_stream_invariant [0, 1, 2] 2).2 0 h2⟩

/-- C2: the entropy series and each group percentage series produced by
one pass have exactly `ceil(fs / chunkSize)` entries, with one series per
group; when more chunks are requested than the file has bytes, the chunk
size is 1 and there is one entry per byte. -/
theorem series_entry_count (shannon : List Nat → ℚ) (ibytes : List (String × List Int))
    (data : List Nat) (n : Nat) (hn : 1 ≤ n) (hfs : 1 ≤ data.length) :
    (run_loop shannon ibytes (get_chunk data (chunksizeN data.length n))).shannon_samples.length
        = Nat.ceil ((data.length : ℚ) / (chunksizeN data.length n : ℚ))
      ∧ (run_loop shannon ibytes (get_chunk data (chunksizeN data.length n))).byte_ranges.length
        = ibytes.length
      ∧ (∀ r ∈ (run_loop shannon ibytes (get_chunk data (chunksizeN data.length n))).byte_ranges,
          r.length = Nat.ceil ((data.length : ℚ) / (chunksizeN data.length n : ℚ)))
      ∧ (data.length < n → chunksizeN data.length n = 1
          ∧ (run_loop shannon ibytes
              (get_chunk data (chunksizeN data.length n))).shannon_samples.length
            = data.length) := by
  have hcs : 1 ≤ chunksizeN data.length n := chunksizeN_pos data.length n hn
  have hlen : (get_chunk data (chunksizeN data.length n)).length
      = cdiv data.length (chunksizeN data.length n) :=
    get_chunk_length data (chunksizeN data.length n) hcs
  have hceil := cdiv_eq_ceil data.length (chunksizeN data.length n) hcs
  have hsam : (run_loop shannon ibytes
      (get_chunk data (chunksizeN data.length n))).shannon_samples.length
      = cdiv data.length (chunksizeN data.length n) := by
    rw [run_loop_samples, List.length_map, hlen]
  refine ⟨by rw [hsam, hceil], ?_, ?_, ?_⟩
  · rw [run_loop_ranges, List.length_map]
  · intro r hr
    rw [run_loop_ranges] at hr
    rcases List.mem_map.mp hr with ⟨p, _, hp⟩
    rw [← hp, List.length_map, hlen, hceil]
  · intro hlt
    have h1 : chunksizeN data.length n = 1 := by
      rw [chunksizeN_eq data.length n hn]
      simp [hlt]
    refine ⟨h1, ?_⟩
    rw [hsam, h1, cdiv_one]

/-- Witness for C2 on a 3-byte file with one group and requested chunk
count 2 (entropy function constantly 0). -/
theorem series_entry_count_witness :
    (1 ≤ 2 ∧ 1 ≤ ([0, 1, 2] : List Nat).length)
      ∧ ((run_loop (fun _ => 0) [("g", [0])]
            (get_chunk [0, 1, 2] (chunksizeN ([0, 1, 2] : List Nat).length 2))).shannon_samples.length
          = Nat.ceil ((([0, 1, 2] : List Nat).length : ℚ)
              / (chunksizeN ([0, 1, 2] : List Nat).length 2 : ℚ))
        ∧ (run_loop (fun _ => 0) [("g", [0])]
            (get_chunk [0, 1, 2] (chunksizeN ([0, 1, 2] : List Nat).length 2))).byte_ranges.length
          = ([("g", [0])] : List (String × List Int)).length
        ∧ (∀ r ∈ (run_loop (fun _ => 0) [("g", [0])]
              (get_chunk [0, 1, 2] (chunksizeN ([0, 1, 2] : List Nat).length 2))).byte_ranges,
            r.length = Nat.ceil ((([0, 1, 2] : List Nat).length : ℚ)
              / (chunksizeN ([0, 1, 2] : List Nat).length 2 : ℚ)))
        ∧ (([0, 1, 2] : List Nat).length < 2 → chunksizeN ([0, 1, 2] : List Nat).length 2 = 1
            ∧ (run_loop (fun _ => 0) [("g", [0])]
                (get_chunk [0, 1, 2] (chunksizeN ([0, 1, 2] : List Nat).length 2))).shannon_samples.length
              = ([0, 1, 2] : List Nat).length)) :=
  ⟨⟨by decide, by decide⟩,
    series_entry_count (fun _ => 0) [("g", [0])] [0, 1, 2] 2 (by decide) (by decide)⟩

/-- C3: for a non-empty chunk and a (duplicate-free) byte group, the
percentage value appended to the group series is the number of bytes of
the chunk whose value lies in the group, divided by the chunk length,
times 100; a group without matches yields 0 rather than an error. -/
theorem byte_group_percentage (c : List Nat) (g : List Int) (hc : c ≠ []) (hnd : g.Nodup) :
    byte_pc c g
        = ((c.countP (fun (x : Nat) => decide ((x : Int) ∈ g)) : ℚ) / (c.length : ℚ)) * 100
      ∧ (c.countP (fun (x : Nat) => decide ((x : Int) ∈ g)) = 0 → byte_pc c g = 0) := by
  have h := occurrence_nodup c g hnd
  constructor
  · unfold byte_pc
    rw [h]
  · intro h0
    unfold byte_pc
    rw [h, h0]
    simp

/-- Witness for C3 on the chunk `[0, 1, 1, 3]` and the group `[1, 5]`. -/
theorem byte_group_percentage_witness :
    (([0, 1, 1, 3] : List Nat) ≠ [] ∧ ([1, 5] : List Int).Nodup)
      ∧ (byte_pc [0, 1, 1, 3] [1, 5]
          = ((List.countP (fun (x : Nat) => decide ((x : Int) ∈ ([1, 5] : List Int)))
                [0, 1, 1, 3] : ℚ) / (([0, 1, 1, 3] : List Nat).length : ℚ)) * 100
        ∧ (List.countP (fun (x : Nat) => decide ((x : Int) ∈ ([1, 5] : List Int)))
              [0, 1, 1, 3] = 0 → byte_pc [0, 1, 1, 3] [1, 5] = 0)) :=
  ⟨⟨by decide, by decide⟩, byte_group_percentage [0, 1, 1, 3] [1, 5] (by decide) (by decide)⟩

/-- A list of elements passes the int-check loop exactly when each element
is a Python int. -/
lemma validate_elems_ok_iff (name : String) (xs : List JVal) :
    validate_elems name xs = Except.ok () ↔ ∀ x ∈ xs, isPyInt x = true := by
  induction xs with
  | nil => simp [validate_elems]
  | cons b t ih =>
    by_cases hb : isPyInt b = true
    · simp [validate_elems, hb, ih]
    · simp [validate_elems, hb]

/-- A group value accepted by the sanity check is necessarily a non-empty
list all of whose elements are Python ints (of any magnitude). -/
lemma validate_group_ok (name : String) (v : JVal)
    (h : validate_group name v = Except.ok ()) :
    ∃ xs, v = JVal.list xs ∧ xs ≠ [] ∧ ∀ x ∈ xs, ∃ k : Int, x = JVal.int k := by
  cases v with
  | str s =>
    exfalso
    by_cases hl : s.length > 0
    · simp only [validate_group, pyLen, pyIter, isPyList, Bool.true_or, Bool.not_true,
        Bool.false_eq_true, if_false, hl, if_true] at h
      rw [validate_elems_ok_iff] at h
      rcases hs : s.toList with _ | ⟨a, t⟩
      · have hlen : s.toList.length = s.length := rfl
        rw [hs] at hlen
        simp at hlen
        omega
      · have := h (JVal.str (String.mk [a])) (by rw [hs]; simp)
        simp [isPyInt] at this
    · simp [validate_group, pyLen, hl] at h
  | int n => simp [validate_group, pyLen] at h
  | bool b => simp [validate_group, pyLen] at h
  | null => simp [validate_group, pyLen] at h
  | obj fields =>
    exfalso
    by_cases hl : fields.length > 0
    · simp only [validate_group, pyLen, pyIter, isPyList, Bool.true_or, Bool.not_true,
        Bool.false_eq_true, if_false, hl, if_true] at h
      rw [validate_elems_ok_iff] at h
      rcases fields with _ | ⟨p, t⟩
      · simp at hl
      · have := h (JVal.str p.1) (by simp)
        simp [isPyInt] at this
    · simp [validate_group, pyLen, hl] at h
  | list xs =>
    refine ⟨xs, rfl, ?_, ?_⟩
    · rintro rfl
      simp [validate_group, pyLen] at h
    · by_cases hl : xs.length > 0
      · simp only [validate_group, pyLen, pyIter, isPyList, Bool.true_or, Bool.not_true,
          Bool.false_eq_true, if_false, hl, if_true] at h
        rw [validate_elems_ok_iff] at h
        intro x hx
        have := h x hx
        cases x <;> simp [isPyInt] at this ⊢
      · simp [validate_group, pyLen, hl] at h

/-- C5 (amended): validation enforces only that every group value is a
non-empty list whose elements are of int type — it performs no range
check, so a spec accepted by validation may contain byte values outside
`[0, 255]` (see the counterexample with value 300). -/
theorem validation_shape_amended (fields : List (String × JVal)) (name : String) (v : JVal)
    (hok : args_validation (some (Except.ok (JVal.obj fields)))
      = Except.ok (JVal.obj fields))
    (hmem : (name, v) ∈ fields) :
    ∃ xs, v = JVal.list xs ∧ xs ≠ [] ∧ ∀ x ∈ xs, ∃ k : Int, x = JVal.int k := by
  have hvf : validate_fields fields = Except.ok () := by
    cases hv : validate_fields fields with
    | error e =>
      exfalso
      simp [args_validation, hv] at hok
    | ok u =>
      cases u
      rfl
  clear hok
  induction fields with
  | nil => simp at hmem
  | cons p t ih =>
    obtain ⟨nm, vv⟩ := p
    have hsplit : validate_group nm vv = Except.ok () ∧ validate_fields t = Except.ok () := by
      cases hg : validate_group nm vv with
      | error e =>
        exfalso
        simp only [validate_fields, hg] at hvf
        exact Except.noConfusion hvf
      | ok u =>
        cases u
        simp only [validate_fields, hg] at hvf
        exact ⟨rfl, hvf⟩
    rcases List.mem_cons.mp hmem with heq | hmem2
    · simp only [Prod.mk.injEq] at heq
      rw [heq.2]
      exact validate_group_ok nm vv hsplit.1
    · exact ih hmem2 hsplit.2

/-- Witness for C5 (amended): the spec with the single group `g` holding
the out-of-range value 300 is accepted, and its value is indeed a
non-empty list of ints. -/
theorem validation_shape_amended_witness :
    (args_validation (some (Except.ok (JVal.obj [("g", JVal.list [JVal.int 300])])))
        = Except.ok (JVal.obj [("g", JVal.list [JVal.int 300])])
      ∧ ("g", JVal.list [JVal.int 300]) ∈ [("g", JVal.list [JVal.int 300])])
      ∧ ∃ xs, JVal.list [JVal.int 300] = JVal.list xs ∧ xs ≠ []
          ∧ ∀ x ∈ xs, ∃ k : Int, x = JVal.int k :=
  ⟨⟨rfl, by simp⟩,
    validation_shape_amended [(("g"), JVal.list [JVal.int 300])] ("g")
      (JVal.list [JVal.int 300]) rfl (by simp)⟩

/-- C7: when the binary-format collaborator fails to parse the file, the
format-aware analysis still completes, returning the full result — the
complete entropy and percentage series with an empty annotation list —
and records the failure as a warning-level event rather than an error. -/
theorem parse_failure_degrades (shannon : List Nat → ℚ) (data : List Nat) (n : Nat)
    (ibytes : List (String × List Int)) (e : String) :
    generate shannon data n ibytes false (Except.error e)
      = Except.ok
          ({ shannon_samples := (get_chunk data (chunksizeN data.length n)).map shannon
             byte_ranges := ibytes.map
               (fun p => (get_chunk data (chunksizeN data.length n)).map (fun c => byte_pc c p.2))
             annotations := []
             nr_chunksize := nr_chunksize data.length n },
           [LogEvent.warning ("Failed to parse with lief, parsing like --blob: " ++ e)]) := by
  simp only [generate, annotations_phase, Bool.false_eq_true, if_false]
  rw [run_loop_samples, run_loop_ranges]

end BinGraph
